import Mathlib

/-!
Shallow embedding of `src/companies-directory/src/components/companies-directory.jsx`.

The component renders a searchable, filterable, sortable, paginated list of
company records.  We embed:

* the JavaScript string primitives the component uses (`trim`, `toLowerCase`,
  `includes`, string comparison) as functions on `String` via `List Char`;
* the `Company` record;
* the derived filter-option lists `locations` / `industries` (lines 54-61);
* the query pipeline `filtered` (lines 64-84);
* the paginator (`totalPages`, `paginated`, the Prev/Next handlers,
  lines 87-88 and 194-207);
* the page-reset effect (lines 90-92) as a step function on the UI state;
* the debounce effect (lines 46-51) as a timed transition system;
* the data loader (lines 5-9 and 28-43).

JavaScript strings are modelled by Lean `String`; `toLowerCase` is modelled
by `Char.toLower` (ASCII case folding) and `localeCompare` / the default
array sort order by code-point lexicographic comparison.
-/

/-- Model of JavaScript `String.prototype.toLowerCase`. -/
def jsToLower (s : String) : String :=
  ⟨s.toList.map Char.toLower⟩

/-- Trim of a character list: drop leading whitespace, then drop trailing
whitespace (by reversing, dropping leading, and reversing back). -/
def trimList (l : List Char) : List Char :=
  (((l.dropWhile Char.isWhitespace).reverse.dropWhile Char.isWhitespace)).reverse

/-- Model of JavaScript `String.prototype.trim`. -/
def jsTrim (s : String) : String :=
  ⟨trimList s.toList⟩

/-- Test whether the second list is an initial segment of the first. -/
def charsStartWith : List Char → List Char → Bool
  | _, [] => true
  | [], _ :: _ => false
  | h :: hs, x :: xs => (h == x) && charsStartWith hs xs

/-- Test whether `needle` occurs as a contiguous segment of `hay`. -/
def charsContain (needle : List Char) : List Char → Bool
  | [] => needle.isEmpty
  | h :: t => charsStartWith (h :: t) needle || charsContain needle t

/-- Model of JavaScript `String.prototype.includes`: `jsIncludes s sub` is
true when `sub` occurs as a contiguous substring of `s`. -/
def jsIncludes (s sub : String) : Bool :=
  charsContain sub.toList s.toList

/-- Code-point lexicographic "less or equal" on character lists. -/
def lexLe : List Char → List Char → Bool
  | [], _ => true
  | _ :: _, [] => false
  | a :: as, b :: bs =>
    if a < b then true
    else if b < a then false
    else lexLe as bs

/-- Model of the string ordering used by `localeCompare` in the name
comparators and by the default `Array.prototype.sort` on the option lists:
`jsStrLe a b` means `a` compares less-or-equal to `b`. -/
def jsStrLe (a b : String) : Bool :=
  lexLe a.toList b.toList

/-- Company record, as described by the data model (id, name, industry,
location, employees, optional description, website). -/
structure Company where
  id : Nat
  name : String
  industry : String
  location : String
  employees : Nat
  description : Option String
  website : String
deriving DecidableEq

/-- The four values offered by the sort `<select>` element:
"name-asc", "name-desc", "employees-asc", "employees-desc". -/
inductive SortKey where
  | nameAsc
  | nameDesc
  | employeesAsc
  | employeesDesc
deriving DecidableEq

/-- Truthiness of an optional string, as JavaScript evaluates
`c.description && …`: `none` (undefined) and `some ""` are falsy. -/
def optStrTruthy : Option String → Bool
  | none => false
  | some s => !(s == "")

/-- Search predicate of the filter on lines 68-73, applied to the
already-lowercased query `q`:
`c.name.toLowerCase().includes(q) || (c.description && c.description.toLowerCase().includes(q)) || (c.industry && c.industry.toLowerCase().includes(q))`. -/
def matchesQuery (q : String) (c : Company) : Bool :=
  jsIncludes (jsToLower c.name) q ||
  (optStrTruthy c.description && jsIncludes (jsToLower (c.description.getD "")) q) ||
  (!(c.industry == "") && jsIncludes (jsToLower c.industry) q)

/-- Search step of the pipeline (lines 66-74): when the trimmed search text
is truthy (non-empty), filter by the trimmed, lowercased query. -/
def searchStep (debouncedSearch : String) (l : List Company) : List Company :=
  if jsTrim debouncedSearch = "" then l
  else l.filter (matchesQuery (jsToLower (jsTrim debouncedSearch)))

/-- Location filter step (line 75): exact match unless the filter is "All". -/
def locationStep (location : String) (l : List Company) : List Company :=
  if location = "All" then l else l.filter (fun c => c.location == location)

/-- Industry filter step (line 76): exact match unless the filter is "All". -/
def industryStep (industry : String) (l : List Company) : List Company :=
  if industry = "All" then l else l.filter (fun c => c.industry == industry)

/-- Comparator of the sort branch (lines 78-81), as a boolean
less-or-equal: `a` sorts no later than `b`. -/
def sortLe (k : SortKey) (a b : Company) : Bool :=
  match k with
  | .nameAsc => jsStrLe a.name b.name
  | .nameDesc => jsStrLe b.name a.name
  | .employeesAsc => decide (a.employees ≤ b.employees)
  | .employeesDesc => decide (b.employees ≤ a.employees)

/-- Sort step of the pipeline (lines 78-81); `Array.prototype.sort` is
stable, so it is modelled by a stable merge sort on the comparator. -/
def sortStep (k : SortKey) (l : List Company) : List Company :=
  l.mergeSort (sortLe k)

/-- Result of the pipeline after the three filter steps, before sorting. -/
def preFiltered (companies : List Company) (debouncedSearch location industry : String) :
    List Company :=
  industryStep industry (locationStep location (searchStep debouncedSearch companies))

/-- The query pipeline `filtered` (lines 64-84): search, then location
filter, then industry filter, then stable sort by the selected key. -/
def filtered (companies : List Company) (debouncedSearch location industry : String)
    (k : SortKey) : List Company :=
  sortStep k (preFiltered companies debouncedSearch location industry)

/-- Page size constant (line 25). -/
def PAGE_SIZE : Nat := 8

/-- Total page count (line 87): `Math.max(1, Math.ceil(filtered.length / PAGE_SIZE))`. -/
def totalPages (l : List Company) : Nat :=
  max 1 ((l.length + PAGE_SIZE - 1) / PAGE_SIZE)

/-- Page slice (line 88): `filtered.slice((page - 1) * PAGE_SIZE, page * PAGE_SIZE)`. -/
def paginated (l : List Company) (page : Nat) : List Company :=
  (l.drop ((page - 1) * PAGE_SIZE)).take PAGE_SIZE

/-- Prev-button handler (line 195): `p => Math.max(1, p - 1)`. -/
def prevPage (p : Nat) : Nat := max 1 (p - 1)

/-- Next-button handler (line 202): `p => Math.min(totalPages, p + 1)`. -/
def nextPage (tp p : Nat) : Nat := min tp (p + 1)

/-- Insertion into a JavaScript `Set` viewed as its iteration order: a new
element is appended, a repeated element leaves the order unchanged. -/
def setFold (seen : List String) (x : String) : List String :=
  if x ∈ seen then seen else seen ++ [x]

/-- Model of `Array.from(new Set(l))`: the distinct elements of `l` in
first-occurrence order. -/
def jsSetList (l : List String) : List String :=
  l.foldl setFold []

/-- Derived location options (lines 54-57):
`["All", ...Array.from(new Set(companies.map(c => c.location))).sort()]`. -/
def locations (companies : List Company) : List String :=
  "All" :: (jsSetList (companies.map (fun c => c.location))).mergeSort jsStrLe

/-- Derived industry options (lines 58-61). -/
def industries (companies : List Company) : List String :=
  "All" :: (jsSetList (companies.map (fun c => c.industry))).mergeSort jsStrLe

/-- UI state of the component: the pieces of `useState` that interact in
the pipeline and paginator (the raw `search` box value is kept by the
debounce machine below). -/
structure UIState where
  companies : List Company
  debouncedSearch : String
  location : String
  industry : String
  sort : SortKey
  page : Nat
deriving DecidableEq

/-- User-visible events that change the pipeline inputs or the page. -/
inductive UIEvent where
  | setDebouncedSearch (v : String)
  | setLocation (v : String)
  | setIndustry (v : String)
  | setSort (k : SortKey)
  | prevClick
  | nextClick
deriving DecidableEq

/-- One render cycle after an event.  React re-renders only when the new
state value differs from the old one, and the effect on lines 90-92
(dependencies `[debouncedSearch, location, industry, sort]`) then resets
`page` to 1; the Prev/Next handlers are lines 195 and 202. -/
def uiStep (s : UIState) (e : UIEvent) : UIState :=
  match e with
  | .setDebouncedSearch v =>
    if v = s.debouncedSearch then s else { s with debouncedSearch := v, page := 1 }
  | .setLocation v =>
    if v = s.location then s else { s with location := v, page := 1 }
  | .setIndustry v =>
    if v = s.industry then s else { s with industry := v, page := 1 }
  | .setSort k =>
    if k = s.sort then s else { s with sort := k, page := 1 }
  | .prevClick => { s with page := prevPage s.page }
  | .nextClick =>
    { s with
      page := nextPage
        (totalPages (filtered s.companies s.debouncedSearch s.location s.industry s.sort))
        s.page }

/-- State of the debounce effect (lines 46-51): the raw `search` value,
the pending `setTimeout` (remaining milliseconds, if any), the propagated
`debouncedSearch` value, and a count of how many times the timer callback
has run (how many times the search filter was applied). -/
structure DebounceState where
  search : String
  timer : Option Nat
  debouncedSearch : String
  fires : Nat
deriving DecidableEq

/-- Events of the debounce machine: a change of the search box, or the
passage of `d` milliseconds with no input. -/
inductive DebounceEvent where
  | input (v : String)
  | elapse (d : Nat)
deriving DecidableEq

/-- One debounce transition.  A new input stores the raw value and
(re)starts a 300ms timer — the cleanup on line 50 `clearTimeout`s any
pending timer, so at most one timer is live.  When enough time elapses the
timer fires, copying `search` into `debouncedSearch` (line 48). -/
def debounceStep (s : DebounceState) (e : DebounceEvent) : DebounceState :=
  match e with
  | .input v => { s with search := v, timer := some 300 }
  | .elapse d =>
    match s.timer with
    | none => s
    | some r =>
      if r ≤ d then
        { s with timer := none, debouncedSearch := s.search, fires := s.fires + 1 }
      else
        { s with timer := some (r - d) }

/-- Run the debounce machine over a list of events. -/
def debounceRun (s : DebounceState) (es : List DebounceEvent) : DebounceState :=
  es.foldl debounceStep s

/-- Event trace of a rapid burst of edits: each pair `(v, d)` is an input
of `v` followed by `d` milliseconds of inactivity, ending with a final
input of `v` and `d` milliseconds of inactivity. -/
def burst (ps : List (String × Nat)) (v : String) (d : Nat) : List DebounceEvent :=
  (ps.flatMap (fun p => [DebounceEvent.input p.1, DebounceEvent.elapse p.2])) ++
    [DebounceEvent.input v, DebounceEvent.elapse d]

/-- Outcome of the `fetch` on line 6, abstracting the network: either the
promise rejects (network error) or a response with a status code and a
parsed JSON body arrives. -/
inductive FetchOutcome where
  | netError (msg : String)
  | response (status : Nat) (body : List Company)

/-- Response.ok of the Fetch API: status in the range 200-299. -/
def resOk (status : Nat) : Bool :=
  200 ≤ status && status ≤ 299

/-- Error message thrown on line 7 for a non-2xx response. -/
def errMessage (status : Nat) : String :=
  "Failed to load companies: " ++ toString status

/-- Embedding of `fetchCompanies` (lines 5-9): a non-2xx response throws
`Failed to load companies: <status>`, otherwise the parsed body is
returned; a network error propagates as the rejection message. -/
def fetchCompanies : FetchOutcome → Except String (List Company)
  | .netError m => .error m
  | .response st body => if resOk st then .ok body else .error (errMessage st)

/-- Loader state: the `companies`, `loading` and `error` pieces of state
(lines 12-14). -/
structure LoaderState where
  companies : List Company
  loading : Bool
  error : Option String
deriving DecidableEq

/-- Initial loader state: empty collection, loading, no error. -/
def initLoader : LoaderState :=
  { companies := [], loading := true, error := none }

/-- JavaScript `err.message || "Unknown error"` (line 39): an empty
message is falsy and is replaced. -/
def jsMessageOr (m : String) : String :=
  if m = "" then "Unknown error" else m

/-- Embedding of the fetch effect (lines 28-43): on resolution the data is
stored and loading ends; on rejection the message is stored as the error
and loading ends.  No retry happens and the collection is left untouched
on error. -/
def loadStep (s : LoaderState) (o : FetchOutcome) : LoaderState :=
  match fetchCompanies o with
  | .ok data => { s with companies := data, loading := false }
  | .error m => { s with error := some (jsMessageOr m), loading := false }

/-- Search predicate following the words of claim C1: a case-insensitive
substring match of the search text against the company's name, description
(when present) and industry. -/
def specMatches (q : String) (c : Company) : Bool :=
  jsIncludes (jsToLower c.name) (jsToLower q) ||
  (match c.description with
   | some d => jsIncludes (jsToLower d) (jsToLower q)
   | none => false) ||
  jsIncludes (jsToLower c.industry) (jsToLower q)

/-- Search step following the words of claim C1 literally: the substring
match is applied whenever the search text itself is non-empty, and the
substring matched is the search text itself. -/
def searchStepSpec (q : String) (l : List Company) : List Company :=
  if q = "" then l else l.filter (specMatches q)

/-- Query pipeline following the words of claim C1. -/
def filteredSpec (companies : List Company) (q location industry : String)
    (k : SortKey) : List Company :=
  sortStep k (industryStep industry (locationStep location (searchStepSpec q companies)))

/-- Search step of the amended claim C1: the substring match is applied
whenever the trimmed search text is non-empty, and the substring matched
is the trimmed search text. -/
def searchStepSpecAmended (q : String) (l : List Company) : List Company :=
  if jsTrim q = "" then l else l.filter (specMatches (jsTrim q))

/-- Query pipeline of the amended claim C1. -/
def filteredSpecAmended (companies : List Company) (q location industry : String)
    (k : SortKey) : List Company :=
  sortStep k (industryStep industry (locationStep location (searchStepSpecAmended q companies)))

/-- Sample company used in concrete witnesses: a description is present. -/
def sampleA : Company :=
  { id := 1, name := "Alpha", industry := "Tech", location := "NY",
    employees := 10, description := some "cloud tools", website := "a" }

/-- Sample company with the same employee count as `sampleA` and no
description. -/
def sampleB : Company :=
  { id := 2, name := "beta", industry := "Tech", location := "SF",
    employees := 10, description := none, website := "b" }

/-- Sample company whose fields contain no whitespace. -/
def sampleX : Company :=
  { id := 3, name := "X", industry := "Y", location := "L",
    employees := 5, description := none, website := "w" }

/-!  Helper lemmas. -/

/-- Membership survives the sort step (it is a permutation). -/
theorem mem_sortStep {c : Company} {k : SortKey} {l : List Company} :
    c ∈ sortStep k l ↔ c ∈ l :=
  (List.mergeSort_perm l (sortLe k)).mem_iff

/-- The industry filter step only removes elements. -/
theorem mem_of_mem_industryStep {c : Company} {i : String} {l : List Company}
    (h : c ∈ industryStep i l) : c ∈ l := by
  unfold industryStep at h
  split at h
  · exact h
  · exact (List.mem_filter.mp h).1

/-- The location filter step only removes elements. -/
theorem mem_of_mem_locationStep {c : Company} {v : String} {l : List Company}
    (h : c ∈ locationStep v l) : c ∈ l := by
  unfold locationStep at h
  split at h
  · exact h
  · exact (List.mem_filter.mp h).1

/-- The search step only removes elements. -/
theorem mem_of_mem_searchStep {c : Company} {q : String} {l : List Company}
    (h : c ∈ searchStep q l) : c ∈ l := by
  unfold searchStep at h
  split at h
  · exact h
  · exact (List.mem_filter.mp h).1

/-- C3: for every collection and every combination of search text, location
filter, industry filter, and sort key, every company in the query
pipeline's output is an element of the original collection. -/
theorem filtered_subset (cs : List Company) (q loc ind : String) (k : SortKey)
    (c : Company) (hc : c ∈ filtered cs q loc ind k) : c ∈ cs :=
  mem_of_mem_searchStep (mem_of_mem_locationStep (mem_of_mem_industryStep
    (mem_sortStep.mp hc)))

/-- Witness for C3 at a concrete collection. -/
theorem filtered_subset_witness :
    { id := 1, name := "X", industry := "Y", location := "L", employees := 5,
      description := none, website := "w" : Company } ∈
      [{ id := 1, name := "X", industry := "Y", location := "L", employees := 5,
         description := none, website := "w" : Company }] :=
  filtered_subset _ "" "All" "All" SortKey.nameAsc _ (by
    have h1 : searchStep ""
        [{ id := 1, name := "X", industry := "Y", location := "L", employees := 5,
           description := none, website := "w" : Company }] =
        [{ id := 1, name := "X", industry := "Y", location := "L", employees := 5,
           description := none, website := "w" : Company }] := by decide
    simp [filtered, preFiltered, sortStep, h1, industryStep, locationStep,
      List.mergeSort_singleton])

/-- C4: the total page count is at least 1 and equals the ceiling of the
filtered length divided by 8 clamped to a minimum of 1, and the Prev/Next
transitions are bounds-checked: from any page in `[1, totalPages]`,
Prev yields `max 1 (p-1)`, Next yields `min totalPages (p+1)`, and both
stay inside `[1, totalPages]`. -/
theorem paginator_bounds (l : List Company) (p : Nat) (h1 : 1 ≤ p)
    (h2 : p ≤ totalPages l) :
    1 ≤ totalPages l ∧
    totalPages l = max 1 ((l.length + 7) / 8) ∧
    prevPage p = max 1 (p - 1) ∧
    nextPage (totalPages l) p = min (totalPages l) (p + 1) ∧
    1 ≤ prevPage p ∧ prevPage p ≤ totalPages l ∧
    1 ≤ nextPage (totalPages l) p ∧ nextPage (totalPages l) p ≤ totalPages l := by
  refine ⟨Nat.le_max_left _ _, rfl, rfl, rfl, Nat.le_max_left _ _,
    Nat.max_le.mpr ⟨Nat.le_max_left _ _, Nat.le_trans (Nat.sub_le p 1) h2⟩,
    Nat.le_min.mpr ⟨Nat.le_max_left _ _, Nat.le_trans h1 (Nat.le_succ p)⟩,
    Nat.min_le_left _ _⟩

/-- Witness for C4 at the empty collection and page 1. -/
theorem paginator_bounds_witness :
    1 ≤ totalPages [] ∧
    totalPages [] = max 1 ((List.length ([] : List Company) + 7) / 8) ∧
    prevPage 1 = max 1 (1 - 1) ∧
    nextPage (totalPages []) 1 = min (totalPages []) (1 + 1) ∧
    1 ≤ prevPage 1 ∧ prevPage 1 ≤ totalPages [] ∧
    1 ≤ nextPage (totalPages []) 1 ∧ nextPage (totalPages []) 1 ≤ totalPages [] :=
  paginator_bounds [] 1 (by decide) (by decide)

/-- C5: whenever any one of the four query-pipeline inputs (debounced
search text, location filter, industry filter, sort key) changes value,
the current page is reset to 1 in the resulting state. -/
theorem input_change_resets_page (s : UIState) (v1 v2 v3 : String) (k : SortKey)
    (h1 : v1 ≠ s.debouncedSearch) (h2 : v2 ≠ s.location)
    (h3 : v3 ≠ s.industry) (h4 : k ≠ s.sort) :
    (uiStep s (UIEvent.setDebouncedSearch v1)).page = 1 ∧
    (uiStep s (UIEvent.setLocation v2)).page = 1 ∧
    (uiStep s (UIEvent.setIndustry v3)).page = 1 ∧
    (uiStep s (UIEvent.setSort k)).page = 1 := by
  simp [uiStep, h1, h2, h3, h4]

/-- Witness for C5 at a concrete state and changed inputs. -/
theorem input_change_resets_page_witness :
    (uiStep { companies := [], debouncedSearch := "", location := "All",
              industry := "All", sort := SortKey.nameAsc, page := 3 }
        (UIEvent.setDebouncedSearch "a")).page = 1 ∧
    (uiStep { companies := [], debouncedSearch := "", location := "All",
              industry := "All", sort := SortKey.nameAsc, page := 3 }
        (UIEvent.setLocation "B")).page = 1 ∧
    (uiStep { companies := [], debouncedSearch := "", location := "All",
              industry := "All", sort := SortKey.nameAsc, page := 3 }
        (UIEvent.setIndustry "C")).page = 1 ∧
    (uiStep { companies := [], debouncedSearch := "", location := "All",
              industry := "All", sort := SortKey.nameAsc, page := 3 }
        (UIEvent.setSort SortKey.nameDesc)).page = 1 :=
  input_change_resets_page _ "a" "B" "C" SortKey.nameDesc
    (by decide) (by decide) (by decide) (by decide)

/-- The thrown message for a non-2xx response is never the empty string,
so `err.message || "Unknown error"` keeps it verbatim. -/
theorem errMessage_ne_empty (st : Nat) : errMessage st ≠ "" := by
  intro h
  have hd := congrArg String.data h
  rw [errMessage, String.data_append] at hd
  have h0 : ("Failed to load companies: ").data = [] :=
    (List.append_eq_nil.mp hd).1
  exact absurd h0 (by decide)

/-- C8: the loader has exactly one error kind.  A network error ends
loading with the rejection message as the user-visible error and no
partial data; a non-2xx response ends loading with an error message that
carries the HTTP status code and no partial data; a 2xx response stores
the parsed collection and ends loading with no error. -/
theorem loader_cases (m : String) (st : Nat) (body : List Company) :
    loadStep initLoader (FetchOutcome.netError m) =
      { companies := [], loading := false, error := some (jsMessageOr m) } ∧
    loadStep initLoader (FetchOutcome.response st body) =
      (if resOk st then
        { companies := body, loading := false, error := none }
      else
        { companies := [], loading := false, error := some (errMessage st) } :
        LoaderState) ∧
    errMessage st = "Failed to load companies: " ++ toString st := by
  refine ⟨rfl, ?_, rfl⟩
  by_cases h : resOk st = true
  · simp [loadStep, fetchCompanies, initLoader, h]
  · simp [loadStep, fetchCompanies, initLoader, h, jsMessageOr, errMessage_ne_empty st]

/-- One step of the debounce machine inside the 300ms window: a keystroke
stores the raw value and restarts the timer; less than 300ms of inactivity
only counts the timer down — `debouncedSearch` does not change and the
callback does not run. -/
theorem debounce_within_window (s : DebounceState) (v : String) (d : Nat)
    (hd : d < 300) :
    debounceRun s [DebounceEvent.input v, DebounceEvent.elapse d] =
      { s with search := v, timer := some (300 - d) } := by
  simp only [debounceRun, List.foldl, debounceStep]
  rw [if_neg (by omega)]

/-- Running a burst from any start state: every gap inside the burst is
below 300ms, the final gap is at least 300ms, so the timer fires exactly
once, propagating the last value. -/
theorem debounce_burst_run (ps : List (String × Nat)) (v : String) (d : Nat)
    (hps : ∀ p ∈ ps, p.2 < 300) (hd : 300 ≤ d) (s : DebounceState) :
    debounceRun s (burst ps v d) =
      { search := v, timer := none, debouncedSearch := v, fires := s.fires + 1 } := by
  induction ps generalizing s with
  | nil =>
    simp only [burst, List.flatMap_nil, List.nil_append, debounceRun, List.foldl,
      debounceStep]
    rw [if_pos hd]
  | cons p ps ih =>
    have hcons : burst (p :: ps) v d =
        DebounceEvent.input p.1 :: DebounceEvent.elapse p.2 :: burst ps v d := by
      simp [burst, List.flatMap_cons, List.cons_append, List.append_assoc]
    have hstep : debounceRun s (burst (p :: ps) v d) =
        debounceRun { s with search := p.1, timer := some (300 - p.2) } (burst ps v d) := by
      rw [hcons]
      simp only [debounceRun, List.foldl, debounceStep]
      rw [if_neg (by have := hps p (List.mem_cons_self p ps); omega)]
    rw [hstep, ih (fun q hq => hps q (List.mem_cons_of_mem p hq))]

/-- C7: the debouncer delays propagation until 300ms elapse without a new
input; within the window a keystroke only restarts the timer without
propagating, and a rapid burst of changes whose internal gaps are all
below 300ms followed by 300ms of inactivity propagates exactly once,
with the last value entered. -/
theorem debounce_last_write_wins (s : DebounceState) (ps : List (String × Nat))
    (v : String) (d dw : Nat) (w : String)
    (hps : ∀ p ∈ ps, p.2 < 300) (hd : 300 ≤ d) (hdw : dw < 300) :
    debounceRun s (burst ps v d) =
      { search := v, timer := none, debouncedSearch := v, fires := s.fires + 1 } ∧
    debounceRun s [DebounceEvent.input w, DebounceEvent.elapse dw] =
      { s with search := w, timer := some (300 - dw) } :=
  ⟨debounce_burst_run ps v d hps hd s, debounce_within_window s w dw hdw⟩

/-- Witness for C7: two keystrokes 100ms apart, then 300ms of silence. -/
theorem debounce_last_write_wins_witness :
    debounceRun { search := "", timer := none, debouncedSearch := "", fires := 0 }
        (burst [("a", 100)] "ab" 300) =
      { search := "ab", timer := none, debouncedSearch := "ab", fires := 1 } ∧
    debounceRun { search := "", timer := none, debouncedSearch := "", fires := 0 }
        [DebounceEvent.input "x", DebounceEvent.elapse 10] =
      { search := "x", timer := some (300 - 10), debouncedSearch := "", fires := 0 } :=
  debounce_last_write_wins _ [("a", 100)] "ab" 300 10 "x"
    (by decide) (by decide) (by decide)

/-- Concatenating the `t` chunks of size `n` of a list of length at most
`t * n` gives back the list. -/
theorem chunks_flatten (n : Nat) :
    ∀ (t : Nat) (l : List Company), l.length ≤ t * n →
      ((List.range t).map (fun i => (l.drop (i * n)).take n)).flatten = l := by
  intro t
  induction t with
  | zero =>
    intro l h
    simp only [List.range_zero, List.map_nil, List.flatten_nil]
    exact (List.length_eq_zero.mp (Nat.le_zero.mp (by simpa using h))).symm
  | succ t ih =>
    intro l h
    rw [List.range_succ_eq_map]
    simp only [List.map_cons, List.map_map, List.flatten_cons, Nat.zero_mul,
      List.drop_zero]
    have hdrop : ∀ i : Nat,
        ((l.drop (Nat.succ i * n)).take n) = (((l.drop n).drop (i * n)).take n) := by
      intro i
      rw [List.drop_drop, Nat.succ_mul, Nat.add_comm (i * n) n]
    have hrest :
        (List.map ((fun i => (l.drop (i * n)).take n) ∘ Nat.succ) (List.range t)).flatten
          = l.drop n := by
      have hmap : List.map ((fun i => (l.drop (i * n)).take n) ∘ Nat.succ) (List.range t)
          = List.map (fun i => ((l.drop n).drop (i * n)).take n) (List.range t) := by
        apply List.map_congr_left
        intro i _
        exact hdrop i
      rw [hmap]
      apply ih
      rw [Nat.succ_mul] at h
      have := List.length_drop n l
      omega
    rw [hrest, List.take_append_drop]

/-- C2: concatenating the pages produced by the paginator, page 1 through
`totalPages`, reproduces the query pipeline's output exactly, with no
element duplicated or dropped. -/
theorem paginated_concat_eq_filtered (cs : List Company) (q loc ind : String)
    (k : SortKey) :
    ((List.range (totalPages (filtered cs q loc ind k))).map
        (fun i => paginated (filtered cs q loc ind k) (i + 1))).flatten =
      filtered cs q loc ind k := by
  have hpage : ∀ i : Nat, paginated (filtered cs q loc ind k) (i + 1)
      = ((filtered cs q loc ind k).drop (i * 8)).take 8 := by
    intro i
    simp [paginated, PAGE_SIZE, Nat.add_sub_cancel]
  have hmap : (List.range (totalPages (filtered cs q loc ind k))).map
        (fun i => paginated (filtered cs q loc ind k) (i + 1))
      = (List.range (totalPages (filtered cs q loc ind k))).map
        (fun i => ((filtered cs q loc ind k).drop (i * 8)).take 8) := by
    apply List.map_congr_left
    intro i _
    exact hpage i
  rw [hmap]
  apply chunks_flatten 8
  have h1 : (filtered cs q loc ind k).length ≤
      (((filtered cs q loc ind k).length + 7) / 8) * 8 := by omega
  have h2 : (((filtered cs q loc ind k).length + 7) / 8) * 8 ≤
      (max 1 (((filtered cs q loc ind k).length + 7) / 8)) * 8 :=
    Nat.mul_le_mul_right _ (Nat.le_max_right _ _)
  exact Nat.le_trans h1 h2

/-- Totality of the code-point lexicographic comparison. -/
theorem lexLe_total : ∀ (a b : List Char), (lexLe a b || lexLe b a) = true := by
  intro a
  induction a with
  | nil => intro b; simp [lexLe]
  | cons x xs ih =>
    intro b
    cases b with
    | nil => simp [lexLe]
    | cons y ys =>
      simp only [lexLe]
      rcases lt_trichotomy x y with h | h | h
      · simp [h]
      · subst h
        simp only [if_neg (lt_irrefl x)]
        exact ih ys
      · simp [h, not_lt_of_gt h]

/-- Transitivity of the code-point lexicographic comparison. -/
theorem lexLe_trans : ∀ (a b c : List Char),
    lexLe a b = true → lexLe b c = true → lexLe a c = true := by
  intro a
  induction a with
  | nil => intro b c _ _; rfl
  | cons x xs ih =>
    intro b c h1 h2
    cases b with
    | nil => simp [lexLe] at h1
    | cons y ys =>
      cases c with
      | nil => simp [lexLe] at h2
      | cons z zs =>
        simp only [lexLe] at h1 h2 ⊢
        by_cases hxy : x < y
        · by_cases hyz : y < z
          · rw [if_pos (lt_trans hxy hyz)]
          · by_cases hzy : z < y
            · rw [if_neg hyz, if_pos hzy] at h2; simp at h2
            · have hyz' : y = z := le_antisymm (not_lt.mp hzy) (not_lt.mp hyz)
              rw [if_pos (hyz' ▸ hxy)]
        · by_cases hyx : y < x
          · rw [if_neg hxy, if_pos hyx] at h1; simp at h1
          · have hxy' : x = y := le_antisymm (not_lt.mp hyx) (not_lt.mp hxy)
            rw [if_neg hxy, if_neg hyx] at h1
            by_cases hyz : y < z
            · rw [if_pos (hxy' ▸ hyz)]
            · by_cases hzy : z < y
              · rw [if_neg hyz, if_pos hzy] at h2; simp at h2
              · have hyz' : y = z := le_antisymm (not_lt.mp hzy) (not_lt.mp hyz)
                have hxz : ¬ x < z := by rw [hxy', hyz']; exact lt_irrefl z
                have hzx : ¬ z < x := by rw [hxy', hyz']; exact lt_irrefl z
                rw [if_neg hxz, if_neg hzx]
                rw [if_neg hyz, if_neg hzy] at h2
                exact ih ys zs h1 h2

/-- Antisymmetry of the code-point lexicographic comparison. -/
theorem lexLe_antisymm : ∀ (a b : List Char),
    lexLe a b = true → lexLe b a = true → a = b := by
  intro a
  induction a with
  | nil =>
    intro b h1 h2
    cases b with
    | nil => rfl
    | cons y ys => simp [lexLe] at h2
  | cons x xs ih =>
    intro b h1 h2
    cases b with
    | nil => simp [lexLe] at h1
    | cons y ys =>
      simp only [lexLe] at h1 h2
      by_cases hxy : x < y
      · rw [if_neg (not_lt_of_gt hxy), if_pos hxy] at h2; simp at h2
      · by_cases hyx : y < x
        · rw [if_neg hxy, if_pos hyx] at h1; simp at h1
        · have hxy' : x = y := le_antisymm (not_lt.mp hyx) (not_lt.mp hxy)
          rw [if_neg hxy, if_neg hyx] at h1
          rw [if_neg hyx, if_neg hxy] at h2
          rw [hxy', ih ys h1 h2]

/-- Transitivity of each of the four sort comparators. -/
theorem sortLe_trans (k : SortKey) : ∀ a b c : Company,
    sortLe k a b = true → sortLe k b c = true → sortLe k a c = true := by
  intro a b c
  cases k <;> simp only [sortLe, jsStrLe] <;> intro h1 h2
  · exact lexLe_trans _ _ _ h1 h2
  · exact lexLe_trans _ _ _ h2 h1
  · exact decide_eq_true (Nat.le_trans (of_decide_eq_true h1) (of_decide_eq_true h2))
  · exact decide_eq_true (Nat.le_trans (of_decide_eq_true h2) (of_decide_eq_true h1))

/-- Totality of each of the four sort comparators. -/
theorem sortLe_total (k : SortKey) : ∀ a b : Company,
    (sortLe k a b || sortLe k b a) = true := by
  intro a b
  cases k <;> simp only [sortLe, jsStrLe]
  · exact lexLe_total _ _
  · exact lexLe_total _ _
  · rcases Nat.le_total a.employees b.employees with h | h <;> simp [h]
  · rcases Nat.le_total a.employees b.employees with h | h <;> simp [h]

/-- C6: for each sort key, the query pipeline's sort is consistent with the
comparator's total order (the output is pairwise ordered by it), and it is
stable: two companies that compare equal under the key and appear in some
relative order before the sort appear in the same relative order after it. -/
theorem sort_stable_and_sorted (cs : List Company) (q loc ind : String) (k : SortKey)
    (c d : Company) (hsub : [c, d].Sublist (preFiltered cs q loc ind))
    (htie1 : sortLe k c d = true) (htie2 : sortLe k d c = true) :
    List.Pairwise (fun a b => sortLe k a b = true) (filtered cs q loc ind k) ∧
    [c, d].Sublist (filtered cs q loc ind k) := by
  constructor
  · exact List.sorted_mergeSort (sortLe_trans k) (sortLe_total k)
      (preFiltered cs q loc ind)
  · exact List.sublist_mergeSort (sortLe_trans k) (sortLe_total k)
      (by simp [List.pairwise_cons, htie1]) hsub

unseal List.merge List.mergeSort in
/-- Witness for C6: two companies with equal employee counts keep their
pre-sort order under the employees-ascending sort. -/
theorem sort_stable_and_sorted_witness :
    List.Pairwise (fun a b => sortLe SortKey.employeesAsc a b = true)
      (filtered [sampleB, sampleA] "" "All" "All" SortKey.employeesAsc) ∧
    [sampleB, sampleA].Sublist
      (filtered [sampleB, sampleA] "" "All" "All" SortKey.employeesAsc) :=
  sort_stable_and_sorted [sampleB, sampleA] "" "All" "All" SortKey.employeesAsc
    sampleB sampleA (by decide) (by decide) (by decide)

/-- Transitivity of the string comparison. -/
theorem jsStrLe_trans : ∀ a b c : String,
    jsStrLe a b = true → jsStrLe b c = true → jsStrLe a c = true := by
  intro a b c h1 h2
  exact lexLe_trans _ _ _ h1 h2

/-- Totality of the string comparison. -/
theorem jsStrLe_total : ∀ a b : String, (jsStrLe a b || jsStrLe b a) = true := by
  intro a b
  exact lexLe_total _ _

/-- Membership in the Set model: an element is collected exactly when it
is in the accumulator or in the traversed list. -/
theorem mem_foldl_setFold : ∀ (l acc : List String) (x : String),
    x ∈ l.foldl setFold acc ↔ x ∈ acc ∨ x ∈ l := by
  intro l
  induction l with
  | nil => intro acc x; simp
  | cons a t ih =>
    intro acc x
    simp only [List.foldl_cons]
    rw [ih]
    unfold setFold
    split
    · rename_i ha
      constructor
      · rintro (hx | hx)
        · exact Or.inl hx
        · exact Or.inr (List.mem_cons_of_mem a hx)
      · rintro (hx | hx)
        · exact Or.inl hx
        · rcases List.mem_cons.mp hx with hx | hx
          · exact Or.inl (hx ▸ ha)
          · exact Or.inr hx
    · simp only [List.mem_append, List.mem_singleton, List.mem_cons]
      tauto

/-- The Set model collects no duplicates. -/
theorem nodup_foldl_setFold : ∀ (l acc : List String), acc.Nodup →
    (l.foldl setFold acc).Nodup := by
  intro l
  induction l with
  | nil => intro acc h; simpa using h
  | cons a t ih =>
    intro acc h
    simp only [List.foldl_cons]
    apply ih
    unfold setFold
    split
    · exact h
    · rename_i ha
      simp [List.nodup_append, h, ha]

/-- Shared form of the option-list property: the tail of a derived option
list has no duplicates, is sorted, and contains exactly the values present
in the projected list. -/
theorem optionTail_spec (l : List String) :
    ((jsSetList l).mergeSort jsStrLe).Nodup ∧
    List.Pairwise (fun a b => jsStrLe a b = true) ((jsSetList l).mergeSort jsStrLe) ∧
    (∀ x, x ∈ (jsSetList l).mergeSort jsStrLe ↔ x ∈ l) := by
  refine ⟨?_, ?_, ?_⟩
  · exact (List.mergeSort_perm (jsSetList l) jsStrLe).nodup_iff.mpr
      (nodup_foldl_setFold l [] (by simp))
  · exact List.sorted_mergeSort jsStrLe_trans jsStrLe_total (jsSetList l)
  · intro x
    rw [(List.mergeSort_perm (jsSetList l) jsStrLe).mem_iff]
    rw [jsSetList, mem_foldl_setFold l [] x]
    simp

/-- C9: each derived option list is the sentinel "All" followed by the
distinct location (respectively industry) values present in the
collection, without duplicates, sorted. -/
theorem filter_options (cs : List Company) :
    (locations cs).head? = some "All" ∧
    ((locations cs).tail).Nodup ∧
    List.Pairwise (fun a b => jsStrLe a b = true) ((locations cs).tail) ∧
    (∀ x, x ∈ (locations cs).tail ↔ x ∈ cs.map (fun c => c.location)) ∧
    (industries cs).head? = some "All" ∧
    ((industries cs).tail).Nodup ∧
    List.Pairwise (fun a b => jsStrLe a b = true) ((industries cs).tail) ∧
    (∀ x, x ∈ (industries cs).tail ↔ x ∈ cs.map (fun c => c.industry)) := by
  have hl := optionTail_spec (cs.map (fun c => c.location))
  have hi := optionTail_spec (cs.map (fun c => c.industry))
  exact ⟨rfl, hl.1, hl.2.1, hl.2.2, rfl, hi.1, hi.2.1, hi.2.2⟩

/-- Dropping a prefix twice is the same as dropping it once. -/
theorem dropWhile_self (p : Char → Bool) : ∀ l : List Char,
    (l.dropWhile p).dropWhile p = l.dropWhile p := by
  intro l
  induction l with
  | nil => rfl
  | cons a t ih =>
    by_cases h : p a
    · simp [List.dropWhile_cons, h, ih]
    · simp [List.dropWhile_cons, h]

/-- The head left by `dropWhile` fails the predicate. -/
theorem dropWhile_head?_false (p : Char → Bool) : ∀ (l : List Char) (a : Char),
    (l.dropWhile p).head? = some a → p a = false := by
  intro l
  induction l with
  | nil => intro a h; simp at h
  | cons b t ih =>
    intro a h
    by_cases hb : p b
    · rw [List.dropWhile_cons, if_pos hb] at h
      exact ih a h
    · rw [List.dropWhile_cons, if_neg hb] at h
      simp only [List.head?_cons, Option.some.injEq] at h
      rw [← h]
      exact Bool.eq_false_iff.mpr hb

/-- A list whose head fails the predicate is untouched by `dropWhile`. -/
theorem dropWhile_eq_self_of_head?_false (p : Char → Bool) (l : List Char) (a : Char)
    (hh : l.head? = some a) (ha : p a = false) : l.dropWhile p = l := by
  cases l with
  | nil => rfl
  | cons b t =>
    simp only [List.head?_cons, Option.some.injEq] at hh
    rw [List.dropWhile_cons, if_neg (by rw [hh, ha]; exact Bool.false_ne_true)]

/-- Key step for trim idempotence: the right-trimmed left-trimmed list has
no leading whitespace left. -/
theorem dropWhile_trimList (l : List Char) :
    (trimList l).dropWhile Char.isWhitespace = trimList l := by
  rw [trimList]
  cases hB : (((l.dropWhile Char.isWhitespace).reverse).dropWhile Char.isWhitespace) with
  | nil => rfl
  | cons b t =>
    have hBne : (((l.dropWhile Char.isWhitespace).reverse).dropWhile Char.isWhitespace) ≠ [] := by
      rw [hB]; exact List.cons_ne_nil b t
    obtain ⟨blast, hblast⟩ :
        ∃ x, (((l.dropWhile Char.isWhitespace).reverse).dropWhile Char.isWhitespace).getLast?
          = some x := by
      cases hx : (((l.dropWhile Char.isWhitespace).reverse).dropWhile Char.isWhitespace).getLast? with
      | none => exact absurd (List.getLast?_eq_none_iff.mp hx) hBne
      | some x => exact ⟨x, rfl⟩
    obtain ⟨pre, hpre⟩ :=
      List.dropWhile_suffix (l := (l.dropWhile Char.isWhitespace).reverse)
        Char.isWhitespace
    have hlast : ((l.dropWhile Char.isWhitespace).reverse).getLast? = some blast := by
      rw [← hpre, List.getLast?_append, hblast]
      rfl
    have hhead : (l.dropWhile Char.isWhitespace).head? = some blast := by
      rw [← List.getLast?_reverse]
      exact hlast
    have hws : Char.isWhitespace blast = false :=
      dropWhile_head?_false Char.isWhitespace l blast hhead
    apply dropWhile_eq_self_of_head?_false Char.isWhitespace _ blast
    · rw [List.head?_reverse]
      rw [hB] at hblast
      exact hblast
    · exact hws

/-- Trimming is idempotent. -/
theorem trimList_idem (l : List Char) : trimList (trimList l) = trimList l := by
  have h1 : (trimList l).dropWhile Char.isWhitespace = trimList l :=
    dropWhile_trimList l
  show trimList (trimList l) = trimList l
  rw [trimList, h1, trimList, List.reverse_reverse, dropWhile_self]

/-- String-level trim idempotence. -/
theorem jsTrim_idem (q : String) : jsTrim (jsTrim q) = jsTrim q := by
  show (⟨trimList (jsTrim q).toList⟩ : String) = jsTrim q
  have : (jsTrim q).toList = trimList q.toList := rfl
  rw [this, trimList_idem]
  rfl

/-- C10: a search text that is non-empty but all whitespace applies no
search filtering at all, and in general the substring the search step
matches is the trimmed search text (lowercased inside `searchStep`), so
searching behaves identically on a text and on its trim. -/
theorem searchStep_trim (q : String) (cs : List Company) :
    ((q ≠ "" ∧ ∀ c ∈ q.toList, c.isWhitespace = true) → searchStep q cs = cs) ∧
    searchStep q cs = searchStep (jsTrim q) cs := by
  constructor
  · rintro ⟨-, hws⟩
    have h1 : q.toList.dropWhile Char.isWhitespace = [] :=
      List.dropWhile_eq_nil_iff.mpr hws
    have h2 : jsTrim q = "" := by
      apply String.ext
      show trimList q.toList = "".data
      rw [trimList, h1]
      rfl
    rw [searchStep, if_pos h2]
  · show searchStep q cs = searchStep (jsTrim q) cs
    unfold searchStep
    rw [jsTrim_idem]

/-- Witness for C10: a single-space search leaves a whitespace-free
company in place. -/
theorem searchStep_trim_witness : searchStep " " [sampleX] = [sampleX] :=
  (searchStep_trim " " [sampleX]).1 ⟨by decide, by decide⟩

/-- Matching the empty lowercased string finds a non-empty needle nowhere. -/
theorem jsIncludes_toLower_empty (x : String) :
    jsIncludes (jsToLower "") x = x.toList.isEmpty := rfl

/-- A trimmed non-empty query has a non-empty character list after
lowercasing. -/
theorem toLower_toList_ne_nil (q : String) (h : q.toList ≠ []) :
    ((jsToLower q).toList).isEmpty = false := by
  cases hl : q.toList with
  | nil => exact absurd hl h
  | cons a t =>
    have he : (jsToLower q).toList = q.toList.map Char.toLower := rfl
    rw [he, hl]
    rfl

/-- A non-empty string has a non-empty character list. -/
theorem toList_ne_nil_of_ne_empty (q : String) (h : q ≠ "") : q.toList ≠ [] := by
  intro hl
  exact h (String.ext hl)

/-- The source's guarded search predicate coincides with the claim's
unguarded one on any non-empty query: the JavaScript truthiness guards on
`description` and `industry` only skip matches that would fail anyway. -/
theorem matchesQuery_eq_specMatches (q : String) (hq : q.toList ≠ []) (c : Company) :
    matchesQuery (jsToLower q) c = specMatches q c := by
  have hne : ((jsToLower q).toList).isEmpty = false := toLower_toList_ne_nil q hq
  unfold matchesQuery specMatches optStrTruthy
  congr 1
  · congr 1
    cases hd : c.description with
    | none => rfl
    | some d =>
      by_cases hde : d = ""
      · subst hde
        simp only [Option.getD_some, beq_self_eq_true, Bool.not_true, Bool.false_and]
        rw [jsIncludes_toLower_empty, hne]
      · have : (d == "") = false := beq_eq_false_iff_ne.mpr hde
        simp only [Option.getD_some, this, Bool.not_false, Bool.true_and]
  · by_cases hi : c.industry = ""
    · rw [hi]
      simp only [beq_self_eq_true, Bool.not_true, Bool.false_and]
      rw [jsIncludes_toLower_empty, hne]
    · have : (c.industry == "") = false := beq_eq_false_iff_ne.mpr hi
      simp only [this, Bool.not_false, Bool.true_and]

/-- The source's search step equals the amended claim's search step. -/
theorem searchStep_eq_specAmended (q : String) (cs : List Company) :
    searchStep q cs = searchStepSpecAmended q cs := by
  unfold searchStep searchStepSpecAmended
  by_cases h : jsTrim q = ""
  · rw [if_pos h, if_pos h]
  · rw [if_neg h, if_neg h]
    exact List.filter_congr (fun c _ =>
      matchesQuery_eq_specMatches (jsTrim q) (toList_ne_nil_of_ne_empty _ h) c)

unseal List.merge List.mergeSort in
/-- Counterexample to C1 as stated: with the whitespace-only search text
" " (non-empty), the pipeline described by the claim filters by the
substring " " and eliminates a company without spaces, while the code
trims the search text first and applies no search filtering. -/
theorem filtered_ne_filteredSpec :
    filtered [sampleX] " " "All" "All" SortKey.nameAsc ≠
      filteredSpec [sampleX] " " "All" "All" SortKey.nameAsc := by decide

/-- C1 (amended): the query pipeline equals the composition, in this
order, of a case-insensitive substring match of the trimmed search text
against name, description and industry whenever the trimmed search text is
non-empty; an exact location filter unless "All"; an exact industry filter
unless "All"; and the stable sort by the selected key. -/
theorem filtered_eq_filteredSpecAmended (cs : List Company) (q loc ind : String)
    (k : SortKey) :
    filtered cs q loc ind k = filteredSpecAmended cs q loc ind k := by
  unfold filtered filteredSpecAmended preFiltered
  rw [searchStep_eq_specAmended]
